import Mathlib

set_option maxRecDepth 8000

/- Shallow embedding of the ingestion / reconciliation / view-derivation engine
   of the market-complaint dashboard (src/index.tsx).

   Modelling conventions:
   - JavaScript strings are Lean strings (the data is ASCII CSV text; the
     case-mapping helpers are modelled on the ASCII range, which is what
     Char.toLower / Char.toUpper implement).  String.prototype.trim,
     String.prototype.split on a one-character separator and the other string
     primitives are implemented structurally on the character list so that
     the kernel can evaluate them on concrete inputs.
   - The result of JavaScript parseInt is modelled as Option Int, with none
     standing for NaN.
   - The Infinity sentinel used by the id comparator is the top element of
     WithTop Int.
   - JavaScript Date objects produced by Date.UTC are modelled by their UTC
     calendar components (year, month, day); Date.UTC normalisation (month
     overflow via floored division by 12, day overflow by walking the
     calendar) is implemented explicitly, including the rule that a year
     argument between 0 and 99 is interpreted as 1900 + year.
   - Array.prototype.sort with a comparator is modelled as a stable insertion
     sort driven by the predicate (comparator a b <= 0). -/

inductive Status where
  | inProgress
  | closed
  deriving DecidableEq, Repr

/-- The unified record type (type Complaint in src/index.tsx). -/
structure Complaint where
  id : String
  plannedDate : String
  step : String
  stepCode : String
  fullName : String
  signature : String
  contact : String
  country : String
  improvementPhotoUrl : String
  statusLink : String
  notes : String
  equipmentName : String
  status : Status
  deriving DecidableEq, Repr

/-- The sortable keys of a Complaint (type SortKey = keyof Complaint). -/
inductive SortKey where
  | id | plannedDate | step | stepCode | fullName | signature | contact
  | country | improvementPhotoUrl | statusLink | notes | equipmentName | status
  deriving DecidableEq, Repr

inductive SortOrder where
  | asc
  | desc
  deriving DecidableEq, Repr

/-- ASCII whitespace, the relevant part both of the characters skipped by
    parseInt and of the characters removed by String.prototype.trim. -/
def jsIsSpace (c : Char) : Bool :=
  decide (c = ' ' ∨ c = '\t' ∨ c = '\n' ∨ c = '\r' ∨ c = '\x0b' ∨ c = '\x0c')

def trimChars (cs : List Char) : List Char :=
  ((cs.dropWhile jsIsSpace).reverse.dropWhile jsIsSpace).reverse

/-- String.prototype.trim. -/
def jsTrim (s : String) : String := String.mk (trimChars s.data)

/-- Split on every occurrence of a separator character; always returns at
    least one (possibly empty) piece, like String.prototype.split. -/
def splitCharAux (sep : Char) : List Char → List Char → List (List Char)
  | acc, [] => [acc.reverse]
  | acc, c :: rest =>
    if c = sep then acc.reverse :: splitCharAux sep [] rest
    else splitCharAux sep (c :: acc) rest

/-- String.prototype.split with a one-character separator. -/
def splitOnChar (sep : Char) (s : String) : List String :=
  (splitCharAux sep [] s.data).map String.mk

def digitVal (c : Char) : Nat := c.toNat - 48

def digitsAux (acc : Nat) : List Char → Nat
  | [] => acc
  | c :: cs => if c.isDigit then digitsAux (acc * 10 + digitVal c) cs else acc

/-- Value of the maximal digit prefix; none when the first char is not a digit. -/
def takeDigits : List Char → Option Nat
  | [] => none
  | c :: cs => if c.isDigit then some (digitsAux (digitVal c) cs) else none

/-- JavaScript parseInt(s, 10): skip whitespace, optional sign, maximal digit
    prefix, trailing junk ignored; none models NaN. -/
def jsParseInt (s : String) : Option Int :=
  match s.data.dropWhile jsIsSpace with
  | '-' :: rest => (takeDigits rest).map (fun n => -(n : Int))
  | '+' :: rest => (takeDigits rest).map (fun n => (n : Int))
  | cs => (takeDigits cs).map (fun n => (n : Int))

def quoteChar : Char := Char.ofNat 34

/-- Field cleaning: v.trim() then strip one leading and one trailing literal
    double quote (the regex replace of the anchored quote alternatives with
    the g flag). -/
def cleanField (v : String) : String :=
  let t := trimChars v.data
  let t1 := match t with
    | c :: rest => if c = quoteChar then rest else t
    | [] => t
  let t2 := if t1.getLast? = some quoteChar then t1.dropLast else t1
  String.mk t2

def countQuotes (cs : List Char) : Nat :=
  (cs.filter (fun c => decide (c = quoteChar))).length

/-- Split a line on every comma that is followed by an even number of double
    quotes up to the end of the line: the split regex with lookahead
    (a comma inside one balanced pair of quotes is not a separator). -/
def splitCsvAux : List Char → List Char → List (List Char)
  | acc, [] => [acc.reverse]
  | acc, c :: rest =>
    if c = ',' ∧ countQuotes rest % 2 = 0 then
      acc.reverse :: splitCsvAux [] rest
    else
      splitCsvAux (c :: acc) rest

def splitCsvLine (line : String) : List String :=
  (splitCsvAux [] line.data).map String.mk

/-- The cleaned field values of one raw data line. -/
def cleanFields (line : String) : List String :=
  (splitCsvLine line).map cleanField

def lowerStr (s : String) : String := String.mk (s.data.map Char.toLower)

/-- needle occurs as a contiguous substring of hay (String.prototype.includes). -/
def subOccurs : List Char → List Char → Bool
  | needle, [] => needle.isEmpty
  | needle, c :: rest => needle.isPrefixOf (c :: rest) || subOccurs needle rest

def strIncludes (s pat : String) : Bool := subOccurs pat.data s.data

/-- The status classifier (getStatus in src/index.tsx). -/
def getStatus (step : String) : Status :=
  if step = "" then .inProgress
  else if strIncludes (lowerStr step) "complete" then .closed
  else .inProgress

/-- Mapping of one primary-schema data line (the row body of
    parseGoogleSheetCSV); cleanValues.getD i "" models cleanValues[i] || ''. -/
def parsePrimaryLine (line : String) : Option Complaint :=
  let cleanValues := cleanFields line
  if cleanValues.length < 1 ∨ cleanValues.getD 0 "" = "" then none
  else
    let step := cleanValues.getD 3 ""
    some
      { id := cleanValues.getD 0 ""
        plannedDate := cleanValues.getD 1 ""
        step := step
        stepCode := cleanValues.getD 5 ""
        fullName := cleanValues.getD 6 ""
        signature := cleanValues.getD 8 ""
        contact := cleanValues.getD 7 ""
        country := cleanValues.getD 9 ""
        improvementPhotoUrl := cleanValues.getD 10 ""
        statusLink := cleanValues.getD 11 ""
        notes := if cleanValues.getD 14 "" = "" then "N/A" else cleanValues.getD 14 ""
        status := getStatus step
        equipmentName := cleanValues.getD 15 "" }

def parseGoogleSheetCSV (csvText : String) : List Complaint :=
  let lines := splitOnChar '\n' (jsTrim csvText)
  let dataLines := lines.drop 1
  (dataLines.filterMap parsePrimaryLine).filter (fun c => decide (c.id ≠ ""))

/-- Mapping of one secondary-schema data line (the row body of
    parseCompletedGoogleSheetCSV). -/
def parseCompletedLine (line : String) : Option Complaint :=
  let cleanValues := cleanFields line
  if cleanValues.length < 1 ∨ cleanValues.getD 0 "" = "" then none
  else
    some
      { id := cleanValues.getD 0 ""
        fullName := cleanValues.getD 1 ""
        signature := cleanValues.getD 2 ""
        country := cleanValues.getD 3 ""
        equipmentName := cleanValues.getD 4 ""
        improvementPhotoUrl := cleanValues.getD 5 ""
        status := .closed
        plannedDate := ""
        step := "Closed"
        stepCode := ""
        contact := ""
        statusLink := ""
        notes := if cleanValues.getD 6 "" = "" then "N/A" else cleanValues.getD 6 "" }

def parseCompletedGoogleSheetCSV (csvText : String) : List Complaint :=
  let lines := splitOnChar '\n' (jsTrim csvText)
  let dataLines := lines.drop 1
  (dataLines.filterMap parseCompletedLine).filter (fun c => decide (c.id ≠ ""))

/-- The reconciliation step of fetchData (src/index.tsx lines 391-394):
    primary records, then the completed records whose id is not an id of a
    primary record. Set membership of `new Set(...)` is list membership. -/
def combineData (parsedTasks parsedCompletedTasks : List Complaint) : List Complaint :=
  let taskIds := parsedTasks.map Complaint.id
  let uniqueCompletedTasks := parsedCompletedTasks.filter (fun t => !taskIds.contains t.id)
  parsedTasks ++ uniqueCompletedTasks

/-- Parse both raw texts and reconcile them: the pure core of fetchData. -/
def unifiedCollection (tasksCsvText completedCsvText : String) : List Complaint :=
  combineData (parseGoogleSheetCSV tasksCsvText) (parseCompletedGoogleSheetCSV completedCsvText)

/-- JavaScript leap-year rule of the proleptic Gregorian calendar; only
    divisibility by 4, 100, 400 matters, so Int.emod is a faithful model of
    the zero tests done with the JavaScript remainder operator. -/
def isLeapYear (y : Int) : Bool :=
  decide (y % 4 = 0 ∧ (y % 100 ≠ 0 ∨ y % 400 = 0))

/-- Length of 0-based month m of year y (values for m ≥ 12 are junk, never
    produced by the normalisation below). -/
def daysInMonth (y : Int) (m : Nat) : Int :=
  if m = 1 then (if isLeapYear y then 29 else 28)
  else if m = 3 ∨ m = 5 ∨ m = 8 ∨ m = 10 then 30 else 31

def nextMonth (y : Int) (m : Nat) : Int × Nat :=
  if m = 11 then (y + 1, 0) else (y, m + 1)

def prevMonth (y : Int) (m : Nat) : Int × Nat :=
  if m = 0 then (y - 1, 11) else (y, m - 1)

/-- Walk the calendar forward while the day exceeds the month length.  The
    fuel argument (instantiated with d.toNat, ample since every step removes
    at least 28 days) keeps the recursion structural so that the kernel can
    evaluate it. -/
def fixDayFwd : Nat → Int → Nat → Int → Int × Nat × Int
  | 0, y, m, d => (y, m, d)
  | fuel + 1, y, m, d =>
    if daysInMonth y m < d then
      let p := nextMonth y m
      fixDayFwd fuel p.1 p.2 (d - daysInMonth y m)
    else (y, m, d)

/-- Walk the calendar backward while the day is below 1. -/
def fixDayBwd : Nat → Int → Nat → Int → Int × Nat × Int
  | 0, y, m, d => (y, m, d)
  | fuel + 1, y, m, d =>
    if d < 1 then
      let p := prevMonth y m
      fixDayBwd fuel p.1 p.2 (d + daysInMonth p.1 p.2)
    else (y, m, d)

/-- Calendar normalisation performed by Date.UTC(y, m, d): the month is
    reduced with floored division / modulo by 12 (the MakeDay rule), then the
    day offset is folded into the calendar. -/
def jsDateNorm (y m d : Int) : Int × Nat × Int :=
  let ym := y + m.fdiv 12
  let mn := (m.fmod 12).toNat
  if d < 1 then fixDayBwd (1 - d).toNat ym mn d else fixDayFwd d.toNat ym mn d

/-- A JavaScript Date produced by Date.UTC, by its UTC calendar components. -/
structure JsDate where
  year : Int
  month : Int
  day : Int
  deriving DecidableEq, Repr

/-- parseDateString (src/index.tsx lines 120-134): split on '/', parseInt the
    three parts, add 2000 to years below 100, build the date with
    Date.UTC(year, month, day) (which maps a year argument in 0..99 to
    1900 + year) and accept it only when year, month and day read back
    unchanged. -/
def parseDateString (s : String) : Option JsDate :=
  if s = "" then none
  else
    match splitOnChar '/' s with
    | [p0, p1, p2] =>
      match jsParseInt p0, jsParseInt p1, jsParseInt p2 with
      | some dd, some mm, some yy =>
        let month : Int := mm - 1
        let year : Int := if yy < 100 then yy + 2000 else yy
        let yAdj : Int := if 0 ≤ year ∧ year ≤ 99 then year + 1900 else year
        let n := jsDateNorm yAdj month dd
        if n.1 = year ∧ (n.2.1 : Int) = month ∧ n.2.2 = dd then
          some ⟨n.1, (n.2.1 : Int), n.2.2⟩
        else none
      | _, _, _ => none
    | _ => none

/-- Days since 1970-01-01 of a civil date with 0-based month, by the standard
    era-based formula (the value computed by MakeDay in Date.UTC). -/
def daysFromCivil (y m d : Int) : Int :=
  let y2 := if m ≤ 1 then y - 1 else y
  let era := y2.fdiv 400
  let yoe := y2 - era * 400
  let mp := (m + 10) % 12
  let doy := (153 * mp + 2) / 5 + d - 1
  let doe := yoe * 365 + yoe / 4 - yoe / 100 + doy
  era * 146097 + doe - 719468

/-- Date.prototype.getTime of a UTC-midnight date, in milliseconds. -/
def jsGetTime (dt : JsDate) : Int :=
  daysFromCivil dt.year dt.month dt.day * 86400000

def statusStr : Status → String
  | .inProgress => "in-progress"
  | .closed => "closed"

/-- a[key] as a string (every Complaint field is a string in the source; the
    status union value is its literal text). -/
def getField (key : SortKey) (a : Complaint) : String :=
  match key with
  | .id => a.id
  | .plannedDate => a.plannedDate
  | .step => a.step
  | .stepCode => a.stepCode
  | .fullName => a.fullName
  | .signature => a.signature
  | .contact => a.contact
  | .country => a.country
  | .improvementPhotoUrl => a.improvementPhotoUrl
  | .statusLink => a.statusLink
  | .notes => a.notes
  | .equipmentName => a.equipmentName
  | .status => statusStr a.status

/-- parseInt(a.id || '', 10) with NaN replaced by Infinity. -/
def idKey (a : Complaint) : WithTop Int :=
  match jsParseInt a.id with
  | some n => (n : WithTop Int)
  | none => ⊤

/-- The comparator passed to sorted.sort in sortedTasks (src/index.tsx lines
    450-473), returning -1, 0 or 1. -/
def jsCompare (key : SortKey) (order : SortOrder) (a b : Complaint) : Int :=
  match key with
  | .id =>
    if idKey a < idKey b then (match order with | .asc => -1 | .desc => 1)
    else if idKey b < idKey a then (match order with | .asc => 1 | .desc => -1)
    else 0
  | .plannedDate =>
    match parseDateString a.plannedDate, parseDateString b.plannedDate with
    | none, _ => 1
    | some _, none => -1
    | some da, some db =>
      if jsGetTime da < jsGetTime db then (match order with | .asc => -1 | .desc => 1)
      else if jsGetTime db < jsGetTime da then (match order with | .asc => 1 | .desc => -1)
      else 0
  | _ =>
    if getField key a < getField key b then (match order with | .asc => -1 | .desc => 1)
    else if getField key b < getField key a then (match order with | .asc => 1 | .desc => -1)
    else 0

def jsLe (key : SortKey) (order : SortOrder) (a b : Complaint) : Bool :=
  decide (jsCompare key order a b ≤ 0)

/-- Insert x in front of the first element y with comparator x y ≤ 0. -/
def orderedInsert {α : Type} (le : α → α → Bool) (x : α) : List α → List α
  | [] => [x]
  | y :: ys => if le x y then x :: y :: ys else y :: orderedInsert le x ys

/-- Stable insertion sort, the model of Array.prototype.sort with a
    comparator: for a consistent comparator the (unique) stable sorted order,
    and a deterministic model of the implementation-defined output where the
    comparator is inconsistent (the plannedDate comparator on two unparseable
    dates). -/
def stableSort {α : Type} (le : α → α → Bool) : List α → List α
  | [] => []
  | x :: xs => orderedInsert le x (stableSort le xs)

/-- sortedTasks for a given sort configuration. -/
def sortComplaints (key : SortKey) (order : SortOrder) (xs : List Complaint) : List Complaint :=
  stableSort (jsLe key order) xs

def isWordChar (c : Char) : Bool := c.isAlpha || c.isDigit || decide (c = '_')

def titleAux : Bool → List Char → List Char
  | _, [] => []
  | boundary, c :: cs =>
    (if boundary && isWordChar c then c.toUpper else c) :: titleAux (!isWordChar c) cs

/-- toTitleCase (src/index.tsx lines 156-159): lowercase the string, then
    uppercase every word character that is preceded by a non-word character
    or the start of the string (the regex replace of the word-boundary
    pattern with the g flag). -/
def toTitleCase (s : String) : String :=
  if s = "" then "" else String.mk (titleAux true (s.data.map Char.toLower))

/-- Modelled from the spec: the spec section 4.6 and the glossary instead
    describe title-case normalisation as lowercasing the whole string and
    then uppercasing the first letter of each whitespace-delimited word.
    This definition follows those words, to be compared with toTitleCase. -/
def specTitleAux : Bool → List Char → List Char
  | _, [] => []
  | boundary, c :: cs =>
    (if boundary then c.toUpper else c) :: specTitleAux c.isWhitespace cs

/-- Modelled from the spec: whitespace-delimited title casing (see
    specTitleAux); the code authority is toTitleCase. -/
def specTitleCase (s : String) : String :=
  String.mk (specTitleAux true (s.data.map Char.toLower))

/-- The country conjunct of the filteredTasks predicate. -/
def matchesCountryFilter (selectedCountry : String) (t : Complaint) : Bool :=
  decide (selectedCountry = "") || decide (toTitleCase t.country = selectedCountry)

/-- The complaint-type conjunct of the filteredTasks predicate
    (toTitleCase (t.notes || '') equals toTitleCase t.notes, both empty on ""). -/
def matchesTypeFilter (selectedComplaintType : String) (t : Complaint) : Bool :=
  decide (selectedComplaintType = "") || decide (toTitleCase t.notes = selectedComplaintType)

/-- Object.values of a Complaint record, each already a string. -/
def fieldStrings (t : Complaint) : List String :=
  [t.id, t.plannedDate, t.step, t.stepCode, t.fullName, t.signature, t.contact,
   t.country, t.improvementPhotoUrl, t.statusLink, t.notes, t.equipmentName,
   statusStr t.status]

/-- The free-text search conjunct of the filteredTasks predicate. -/
def matchesSearch (searchTerm : String) (t : Complaint) : Bool :=
  decide (searchTerm = "") ||
    (fieldStrings t).any (fun v => strIncludes (lowerStr v) (lowerStr searchTerm))

inductive StatusFilter where
  | all
  | only : Status → StatusFilter
  deriving DecidableEq, Repr

def matchesStatusFilter : StatusFilter → Complaint → Bool
  | .all, _ => true
  | .only s, t => decide (t.status = s)

/-- The full filteredTasks predicate (conjunction of the four conjuncts). -/
def filterComplaints (statusFilter : StatusFilter) (selectedCountry selectedComplaintType searchTerm : String) (xs : List Complaint) : List Complaint :=
  xs.filter (fun t =>
    matchesStatusFilter statusFilter t && matchesCountryFilter selectedCountry t &&
      matchesTypeFilter selectedComplaintType t && matchesSearch searchTerm t)

/-- Every record surviving the primary parse came from a line on which
    parsePrimaryLine succeeded. -/
theorem mem_parseGoogleSheetCSV {csvText : String} {r : Complaint}
    (hr : r ∈ parseGoogleSheetCSV csvText) :
    ∃ line, parsePrimaryLine line = some r := by
  simp only [parseGoogleSheetCSV, List.mem_filter, List.mem_filterMap] at hr
  obtain ⟨⟨line, _, hparse⟩, _⟩ := hr
  exact ⟨line, hparse⟩

theorem mem_parseCompletedGoogleSheetCSV {csvText : String} {r : Complaint}
    (hr : r ∈ parseCompletedGoogleSheetCSV csvText) :
    ∃ line, parseCompletedLine line = some r := by
  simp only [parseCompletedGoogleSheetCSV, List.mem_filter, List.mem_filterMap] at hr
  obtain ⟨⟨line, _, hparse⟩, _⟩ := hr
  exact ⟨line, hparse⟩

theorem parsePrimaryLine_status {line : String} {r : Complaint}
    (h : parsePrimaryLine line = some r) : r.status = getStatus r.step := by
  simp only [parsePrimaryLine] at h
  split at h
  · exact absurd h (by simp)
  · cases h
    rfl

theorem parseCompletedLine_status {line : String} {r : Complaint}
    (h : parseCompletedLine line = some r) :
    r.status = Status.closed ∧ r.step = "Closed" := by
  simp only [parseCompletedLine] at h
  split at h
  · exact absurd h (by simp)
  · cases h
    exact ⟨rfl, rfl⟩

/-- C1 counterexample: in the unified collection built from an empty primary
    sheet and a one-row secondary sheet there is a record (the
    secondary-mapped one, with step "Closed" and status closed) whose status
    differs from what the classifier computes on its step field, so status is
    not determined by step as the classifier rule states for secondary-mapped
    records. -/
theorem C1_counterexample :
    ∃ r ∈ unifiedCollection "h" "h\n1", r.status ≠ getStatus r.step := by
  decide

/-- C1 (amended): the status of a primary-mapped record is determined by its
    step field exactly as the classifier rule states; a secondary-mapped
    record instead has status fixed to closed and step fixed to the literal
    "Closed", on which the classifier rule would yield in-progress (the
    substring "complete" does not occur in "closed"). -/
theorem C1_amended :
    (∀ csvText : String, ∀ r ∈ parseGoogleSheetCSV csvText,
      r.status = getStatus r.step) ∧
    (∀ csvText : String, ∀ r ∈ parseCompletedGoogleSheetCSV csvText,
      r.status = Status.closed ∧ r.step = "Closed" ∧
        getStatus r.step = Status.inProgress) := by
  constructor
  · intro csvText r hr
    obtain ⟨line, hline⟩ := mem_parseGoogleSheetCSV hr
    exact parsePrimaryLine_status hline
  · intro csvText r hr
    obtain ⟨line, hline⟩ := mem_parseCompletedGoogleSheetCSV hr
    obtain ⟨h1, h2⟩ := parseCompletedLine_status hline
    refine ⟨h1, h2, ?_⟩
    rw [h2]
    decide

theorem C1_amended_witness :
    ((⟨"1", "a", "", "", "", "", "", "", "", "", "N/A", "", .inProgress⟩ : Complaint) ∈
        parseGoogleSheetCSV "h\n1,a" ∧
      (⟨"1", "a", "", "", "", "", "", "", "", "", "N/A", "", .inProgress⟩ : Complaint).status =
        getStatus (⟨"1", "a", "", "", "", "", "", "", "", "", "N/A", "", .inProgress⟩ : Complaint).step) ∧
    ((⟨"1", "", "Closed", "", "", "", "", "", "", "", "N/A", "", .closed⟩ : Complaint) ∈
        parseCompletedGoogleSheetCSV "h\n1" ∧
      (⟨"1", "", "Closed", "", "", "", "", "", "", "", "N/A", "", .closed⟩ : Complaint).status = Status.closed ∧
      (⟨"1", "", "Closed", "", "", "", "", "", "", "", "N/A", "", .closed⟩ : Complaint).step = "Closed" ∧
      getStatus (⟨"1", "", "Closed", "", "", "", "", "", "", "", "N/A", "", .closed⟩ : Complaint).step = Status.inProgress) :=
  ⟨⟨by decide, C1_amended.1 "h\n1,a" _ (by decide)⟩,
   ⟨by decide, C1_amended.2 "h\n1" _ (by decide)⟩⟩

/-- C2: the reconciled collection is all of P in order, followed by exactly
    those records of S whose id does not occur in P, in the order of S; a
    record appears in the result exactly when it is in P, or in S with an id
    that no P record carries. -/
theorem C2_reconcile :
    ∀ p s : List Complaint,
      combineData p s = p ++ s.filter (fun t => decide (t.id ∉ p.map Complaint.id)) ∧
      (∀ x, x ∈ combineData p s ↔ x ∈ p ∨ (x ∈ s ∧ x.id ∉ p.map Complaint.id)) := by
  intro p s
  have hfilter : combineData p s = p ++ s.filter (fun t => decide (t.id ∉ p.map Complaint.id)) := by
    simp only [combineData]
    congr 1
    apply List.filter_congr
    intro t _
    simp only [List.contains, List.elem_eq_mem, decide_not]
  refine ⟨hfilter, ?_⟩
  intro x
  rw [hfilter]
  simp [List.mem_filter]

/-- C3 counterexample: two primary rows with the same id both survive, so a
    unified collection can contain two distinct records with the same id. -/
theorem C3_counterexample :
    ∃ a ∈ unifiedCollection "h\n1,a\n1,b" "h",
      ∃ b ∈ unifiedCollection "h\n1,a\n1,b" "h", a ≠ b ∧ a.id = b.id := by
  decide

/-- C3 (amended): cross-source duplicates are always removed, so whenever
    each parsed source collection has pairwise-distinct ids on its own, the
    unified collection has pairwise-distinct ids.  (Duplicate ids inside one
    source are not collapsed, as the counterexample shows.) -/
theorem C3_amended :
    ∀ tasksCsvText completedCsvText : String,
      (parseGoogleSheetCSV tasksCsvText).Pairwise (fun a b => a.id ≠ b.id) →
      (parseCompletedGoogleSheetCSV completedCsvText).Pairwise (fun a b => a.id ≠ b.id) →
      (unifiedCollection tasksCsvText completedCsvText).Pairwise (fun a b => a.id ≠ b.id) := by
  intro tasksCsvText completedCsvText hp hs
  unfold unifiedCollection combineData
  rw [List.pairwise_append]
  refine ⟨hp, hs.sublist (List.filter_sublist _), ?_⟩
  intro a ha b hb
  rw [List.mem_filter] at hb
  have hnot : b.id ∉ (parseGoogleSheetCSV tasksCsvText).map Complaint.id := by
    have := hb.2
    simpa [List.contains, List.elem_eq_mem] using this
  intro heq
  exact hnot (heq ▸ List.mem_map_of_mem Complaint.id ha)

theorem C3_amended_witness :
    (parseGoogleSheetCSV "h\n1,a\n2,b").Pairwise (fun a b => a.id ≠ b.id) ∧
    (parseCompletedGoogleSheetCSV "h\n1,x").Pairwise (fun a b => a.id ≠ b.id) ∧
    (unifiedCollection "h\n1,a\n2,b" "h\n1,x").Pairwise (fun a b => a.id ≠ b.id) :=
  ⟨by decide, by decide, C3_amended "h\n1,a\n2,b" "h\n1,x" (by decide) (by decide)⟩

/-- The guard of both line mappers is equivalent to the first cleaned field
    being empty (the split always yields at least one field, and getD of an
    empty list is the empty default anyway). -/
theorem mapGuard_iff (line : String) :
    ((cleanFields line).length < 1 ∨ (cleanFields line).getD 0 "" = "") ↔
      (cleanFields line).getD 0 "" = "" := by
  constructor
  · rintro (h | h)
    · have hnil : cleanFields line = [] := List.length_eq_zero.mp (Nat.lt_one_iff.mp h)
      rw [hnil]
      rfl
    · exact h
  · exact Or.inr

/-- C8 counterexample: the data row whose single field is a quoted blank
    cleans to the one-character string " ", which is non-empty, so the row
    produces a record even though its identity field is empty after trimming;
    the produced id is exactly that blank. -/
theorem C8_counterexample :
    (parseGoogleSheetCSV ("h\n" ++ String.mk [quoteChar, ' ', quoteChar] ++ ",b")).map Complaint.id
        = [" "] ∧
      jsTrim " " = "" := by
  decide

/-- C8 (amended): a data line produces a record if and only if its field 0 is
    non-empty after the cleaning step itself (trim, then strip one leading and
    one trailing quote) - with no further trimming applied afterwards - and
    this holds for the primary and the secondary mapping alike. -/
theorem C8_amended :
    ∀ line : String,
      ((parsePrimaryLine line).isSome ↔ (cleanFields line).getD 0 "" ≠ "") ∧
      ((parseCompletedLine line).isSome ↔ (cleanFields line).getD 0 "" ≠ "") := by
  intro line
  constructor
  · simp only [parsePrimaryLine]
    split
    next h =>
      have h0 : (cleanFields line).getD 0 "" = "" := (mapGuard_iff line).mp h
      simp [← List.getD_eq_getElem?_getD, h0]
    next h =>
      have h0 : (cleanFields line).getD 0 "" ≠ "" := fun he => h (Or.inr he)
      simp [← List.getD_eq_getElem?_getD, h0]
  · simp only [parseCompletedLine]
    split
    next h =>
      have h0 : (cleanFields line).getD 0 "" = "" := (mapGuard_iff line).mp h
      simp [← List.getD_eq_getElem?_getD, h0]
    next h =>
      have h0 : (cleanFields line).getD 0 "" ≠ "" := fun he => h (Or.inr he)
      simp [← List.getD_eq_getElem?_getD, h0]

/-- Reading a source position past the end of the row, or one holding the
    empty string, yields the empty string either way. -/
theorem getD_empty_of {l : List String} {k : Nat}
    (h : l.length ≤ k ∨ l.getD k "" = "") : l.getD k "" = "" := by
  rcases h with h | h
  · exact List.getD_eq_default l "" h
  · exact h

/-- C10: a data line with a non-empty cleaned field 0 always maps to a record
    under both schemas, even when it yields fewer fields than the schema
    expects; every source position at or past the end of the row, and every
    position holding an empty string, contributes the empty string to its
    target field, except notes which receives the sentinel "N/A". -/
theorem C10_short_rows :
    ∀ line : String, (cleanFields line).getD 0 "" ≠ "" →
      (∃ r, parsePrimaryLine line = some r ∧
        (((cleanFields line).length ≤ 1 ∨ (cleanFields line).getD 1 "" = "") → r.plannedDate = "") ∧
        (((cleanFields line).length ≤ 3 ∨ (cleanFields line).getD 3 "" = "") → r.step = "") ∧
        (((cleanFields line).length ≤ 5 ∨ (cleanFields line).getD 5 "" = "") → r.stepCode = "") ∧
        (((cleanFields line).length ≤ 6 ∨ (cleanFields line).getD 6 "" = "") → r.fullName = "") ∧
        (((cleanFields line).length ≤ 7 ∨ (cleanFields line).getD 7 "" = "") → r.contact = "") ∧
        (((cleanFields line).length ≤ 8 ∨ (cleanFields line).getD 8 "" = "") → r.signature = "") ∧
        (((cleanFields line).length ≤ 9 ∨ (cleanFields line).getD 9 "" = "") → r.country = "") ∧
        (((cleanFields line).length ≤ 10 ∨ (cleanFields line).getD 10 "" = "") → r.improvementPhotoUrl = "") ∧
        (((cleanFields line).length ≤ 11 ∨ (cleanFields line).getD 11 "" = "") → r.statusLink = "") ∧
        (((cleanFields line).length ≤ 14 ∨ (cleanFields line).getD 14 "" = "") → r.notes = "N/A") ∧
        (((cleanFields line).length ≤ 15 ∨ (cleanFields line).getD 15 "" = "") → r.equipmentName = "")) ∧
      (∃ r, parseCompletedLine line = some r ∧
        (((cleanFields line).length ≤ 1 ∨ (cleanFields line).getD 1 "" = "") → r.fullName = "") ∧
        (((cleanFields line).length ≤ 2 ∨ (cleanFields line).getD 2 "" = "") → r.signature = "") ∧
        (((cleanFields line).length ≤ 3 ∨ (cleanFields line).getD 3 "" = "") → r.country = "") ∧
        (((cleanFields line).length ≤ 4 ∨ (cleanFields line).getD 4 "" = "") → r.equipmentName = "") ∧
        (((cleanFields line).length ≤ 5 ∨ (cleanFields line).getD 5 "" = "") → r.improvementPhotoUrl = "") ∧
        (((cleanFields line).length ≤ 6 ∨ (cleanFields line).getD 6 "" = "") → r.notes = "N/A")) := by
  intro line h
  have hcond : ¬ ((cleanFields line).length < 1 ∨ (cleanFields line).getD 0 "" = "") :=
    fun hc => h ((mapGuard_iff line).mp hc)
  constructor
  · refine ⟨_, by simp only [parsePrimaryLine]; rw [if_neg hcond], ?_, ?_, ?_, ?_, ?_, ?_, ?_, ?_, ?_, ?_, ?_⟩ <;>
      · intro hl
        have h0 := getD_empty_of hl
        rw [List.getD_eq_getElem?_getD] at h0
        simp [h0]
  · refine ⟨_, by simp only [parseCompletedLine]; rw [if_neg hcond], ?_, ?_, ?_, ?_, ?_, ?_⟩ <;>
      · intro hl
        have h0 := getD_empty_of hl
        rw [List.getD_eq_getElem?_getD] at h0
        simp [h0]

theorem C10_short_rows_witness :
    (cleanFields "x").getD 0 "" ≠ "" ∧
      ((∃ r, parsePrimaryLine "x" = some r ∧
        (((cleanFields "x").length ≤ 1 ∨ (cleanFields "x").getD 1 "" = "") → r.plannedDate = "") ∧
        (((cleanFields "x").length ≤ 3 ∨ (cleanFields "x").getD 3 "" = "") → r.step = "") ∧
        (((cleanFields "x").length ≤ 5 ∨ (cleanFields "x").getD 5 "" = "") → r.stepCode = "") ∧
        (((cleanFields "x").length ≤ 6 ∨ (cleanFields "x").getD 6 "" = "") → r.fullName = "") ∧
        (((cleanFields "x").length ≤ 7 ∨ (cleanFields "x").getD 7 "" = "") → r.contact = "") ∧
        (((cleanFields "x").length ≤ 8 ∨ (cleanFields "x").getD 8 "" = "") → r.signature = "") ∧
        (((cleanFields "x").length ≤ 9 ∨ (cleanFields "x").getD 9 "" = "") → r.country = "") ∧
        (((cleanFields "x").length ≤ 10 ∨ (cleanFields "x").getD 10 "" = "") → r.improvementPhotoUrl = "") ∧
        (((cleanFields "x").length ≤ 11 ∨ (cleanFields "x").getD 11 "" = "") → r.statusLink = "") ∧
        (((cleanFields "x").length ≤ 14 ∨ (cleanFields "x").getD 14 "" = "") → r.notes = "N/A") ∧
        (((cleanFields "x").length ≤ 15 ∨ (cleanFields "x").getD 15 "" = "") → r.equipmentName = "")) ∧
      (∃ r, parseCompletedLine "x" = some r ∧
        (((cleanFields "x").length ≤ 1 ∨ (cleanFields "x").getD 1 "" = "") → r.fullName = "") ∧
        (((cleanFields "x").length ≤ 2 ∨ (cleanFields "x").getD 2 "" = "") → r.signature = "") ∧
        (((cleanFields "x").length ≤ 3 ∨ (cleanFields "x").getD 3 "" = "") → r.country = "") ∧
        (((cleanFields "x").length ≤ 4 ∨ (cleanFields "x").getD 4 "" = "") → r.equipmentName = "") ∧
        (((cleanFields "x").length ≤ 5 ∨ (cleanFields "x").getD 5 "" = "") → r.improvementPhotoUrl = "") ∧
        (((cleanFields "x").length ≤ 6 ∨ (cleanFields "x").getD 6 "" = "") → r.notes = "N/A"))) :=
  ⟨by decide, C10_short_rows "x" (by decide)⟩

/-- C9: a record passes the non-empty free-text search exactly when the
    lowercased term occurs as a substring of the lowercased string form of at
    least one of its fields; in particular equipmentName "Mixer-900" matches
    the term "mixer". -/
theorem C9_search :
    (∀ (searchTerm : String) (t : Complaint), searchTerm ≠ "" →
      (matchesSearch searchTerm t = true ↔
        ∃ v ∈ fieldStrings t, strIncludes (lowerStr v) (lowerStr searchTerm) = true)) ∧
    matchesSearch "mixer"
      ⟨"1", "", "", "", "", "", "", "", "", "", "", "Mixer-900", .inProgress⟩ = true := by
  constructor
  · intro searchTerm t ht
    simp [matchesSearch, ht, List.any_eq_true]
  · decide

theorem C9_search_witness :
    ("mixer" : String) ≠ "" ∧
      (matchesSearch "mixer"
          ⟨"1", "", "", "", "", "", "", "", "", "", "", "Mixer-900", .inProgress⟩ = true ↔
        ∃ v ∈ fieldStrings
            (⟨"1", "", "", "", "", "", "", "", "", "", "", "Mixer-900", .inProgress⟩ : Complaint),
          strIncludes (lowerStr v) (lowerStr "mixer") = true) :=
  ⟨by decide, C9_search.1 "mixer" _ (by decide)⟩

/-- C7 counterexample: for the record with country "x-y", the whitespace-based
    title casing described by the claim yields "X-y", so the claim predicts
    that the record passes the country filter with value "X-y" (a value that
    the claimed normalization itself produces); the code normalizes with a
    word-boundary rule, giving "X-Y", and the record does not pass. -/
theorem C7_counterexample :
    specTitleCase "x-y" = "X-y" ∧
      matchesCountryFilter "X-y"
        ⟨"1", "", "", "", "", "", "", "x-y", "", "", "", "", .inProgress⟩ = false := by
  decide

/-- C7 (amended): a record passes a set country (complaint-type) filter
    exactly when its country (notes) field, title-cased by the word-boundary
    rule of the code - lowercase the string, then uppercase the first
    character of each maximal run of ASCII letters, digits or underscores -
    equals the filter value; "Packaging Defect" and "packaging defect" both
    normalize to "Packaging Defect" and both match that filter value. -/
theorem C7_amended :
    (∀ (v : String) (t : Complaint), v ≠ "" →
      ((matchesCountryFilter v t = true ↔ toTitleCase t.country = v) ∧
        (matchesTypeFilter v t = true ↔ toTitleCase t.notes = v))) ∧
    toTitleCase "Packaging Defect" = "Packaging Defect" ∧
    toTitleCase "packaging defect" = "Packaging Defect" ∧
    matchesTypeFilter "Packaging Defect"
      ⟨"1", "", "", "", "", "", "", "", "", "", "Packaging Defect", "", .inProgress⟩ = true ∧
    matchesTypeFilter "Packaging Defect"
      ⟨"2", "", "", "", "", "", "", "", "", "", "packaging defect", "", .inProgress⟩ = true := by
  refine ⟨?_, by decide, by decide, by decide, by decide⟩
  intro v t hv
  constructor
  · simp [matchesCountryFilter, hv]
  · simp [matchesTypeFilter, hv]

theorem C7_amended_witness :
    ("Packaging Defect" : String) ≠ "" ∧
      ((matchesCountryFilter "Packaging Defect"
          ⟨"1", "", "", "", "", "", "", "", "", "", "packaging defect", "", .inProgress⟩ = true ↔
        toTitleCase
            (⟨"1", "", "", "", "", "", "", "", "", "", "packaging defect", "", .inProgress⟩ : Complaint).country =
          "Packaging Defect") ∧
      (matchesTypeFilter "Packaging Defect"
          ⟨"1", "", "", "", "", "", "", "", "", "", "packaging defect", "", .inProgress⟩ = true ↔
        toTitleCase
            (⟨"1", "", "", "", "", "", "", "", "", "", "packaging defect", "", .inProgress⟩ : Complaint).notes =
          "Packaging Defect")) :=
  ⟨by decide, C7_amended.1 "Packaging Defect" _ (by decide)⟩

theorem mem_orderedInsert {α : Type} (le : α → α → Bool) (x z : α) (l : List α) :
    z ∈ orderedInsert le x l ↔ z = x ∨ z ∈ l := by
  induction l with
  | nil => simp [orderedInsert]
  | cons y ys ih =>
    simp only [orderedInsert]
    split
    · simp only [List.mem_cons]
    · simp only [List.mem_cons, ih]
      tauto

/-- Inserting into a list pairwise-related by R preserves pairwise R, for any
    R that contains the comparator verdict in both directions and lets a
    comparator verdict compose with R on the right. -/
theorem pairwise_orderedInsert {α : Type} {le : α → α → Bool} {R : α → α → Prop}
    (h1 : ∀ a b, le a b = true → R a b)
    (h2 : ∀ a b, le a b = false → R b a)
    (h3 : ∀ a b c, le a b = true → R b c → R a c)
    (x : α) : ∀ l : List α, l.Pairwise R → (orderedInsert le x l).Pairwise R := by
  intro l
  induction l with
  | nil => intro _; simp [orderedInsert]
  | cons y ys ih =>
    intro hl
    rcases List.pairwise_cons.mp hl with ⟨hy, hys⟩
    simp only [orderedInsert]
    split
    next hxy =>
      refine List.pairwise_cons.mpr ⟨?_, hl⟩
      intro z hz
      rcases List.mem_cons.mp hz with rfl | hz2
      · exact h1 _ _ hxy
      · exact h3 _ _ _ hxy (hy z hz2)
    next hxy =>
      have hxy2 : le x y = false := by revert hxy; cases le x y <;> simp
      refine List.pairwise_cons.mpr ⟨?_, ih hys⟩
      intro z hz
      rcases (mem_orderedInsert le x z ys).mp hz with rfl | hz2
      · exact h2 _ _ hxy2
      · exact hy z hz2

theorem pairwise_stableSort {α : Type} {le : α → α → Bool} {R : α → α → Prop}
    (h1 : ∀ a b, le a b = true → R a b)
    (h2 : ∀ a b, le a b = false → R b a)
    (h3 : ∀ a b c, le a b = true → R b c → R a c) :
    ∀ l : List α, (stableSort le l).Pairwise R := by
  intro l
  induction l with
  | nil => simp [stableSort]
  | cons x xs ih => exact pairwise_orderedInsert h1 h2 h3 x _ ih

theorem jsLe_id_asc (a b : Complaint) :
    jsLe .id .asc a b = true ↔ idKey a ≤ idKey b := by
  simp only [jsLe, jsCompare, decide_eq_true_eq]
  split
  next h => exact iff_of_true (by norm_num) (le_of_lt h)
  next h =>
    split
    next h2 => exact iff_of_false (by norm_num) (not_le.mpr h2)
    next h2 => exact iff_of_true le_rfl (le_of_not_lt h2)

theorem jsLe_id_desc (a b : Complaint) :
    jsLe .id .desc a b = true ↔ idKey b ≤ idKey a := by
  simp only [jsLe, jsCompare, decide_eq_true_eq]
  split
  next h => exact iff_of_false (by norm_num) (not_le.mpr h)
  next h =>
    split
    next h2 => exact iff_of_true (by norm_num) (le_of_lt h2)
    next h2 => exact iff_of_true le_rfl (le_of_not_lt h)

/-- C4: sorting by id is numeric-aware; idKey parses the leading integer of
    the id and sends ids without one to the top element, the ascending result
    is pairwise ordered by idKey (so every non-numeric id follows every
    numeric id, and numeric ids are ordered by value), the descending result
    is pairwise ordered the opposite way (non-numeric ids first), and the
    ids ["10", "2", "abc"] sort to ["2", "10", "abc"] ascending and
    ["abc", "10", "2"] descending. -/
theorem C4_id_sort :
    (∀ xs : List Complaint,
      (sortComplaints .id .asc xs).Pairwise (fun a b => idKey a ≤ idKey b)) ∧
    (∀ xs : List Complaint,
      (sortComplaints .id .desc xs).Pairwise (fun a b => idKey b ≤ idKey a)) ∧
    (sortComplaints .id .asc
        [⟨"10", "", "", "", "", "", "", "", "", "", "", "", .inProgress⟩,
         ⟨"2", "", "", "", "", "", "", "", "", "", "", "", .inProgress⟩,
         ⟨"abc", "", "", "", "", "", "", "", "", "", "", "", .inProgress⟩]).map Complaint.id =
      ["2", "10", "abc"] ∧
    (sortComplaints .id .desc
        [⟨"10", "", "", "", "", "", "", "", "", "", "", "", .inProgress⟩,
         ⟨"2", "", "", "", "", "", "", "", "", "", "", "", .inProgress⟩,
         ⟨"abc", "", "", "", "", "", "", "", "", "", "", "", .inProgress⟩]).map Complaint.id =
      ["abc", "10", "2"] ∧
    idKey ⟨"abc", "", "", "", "", "", "", "", "", "", "", "", .inProgress⟩ = ⊤ ∧
    idKey ⟨"10", "", "", "", "", "", "", "", "", "", "", "", .inProgress⟩ = (10 : Int) ∧
    jsParseInt "abc" = none ∧ jsParseInt "10" = some 10 := by
  refine ⟨?_, ?_, by decide, by decide, by decide, by decide, by decide, by decide⟩
  · intro xs
    apply pairwise_stableSort
    · intro a b h
      exact (jsLe_id_asc a b).mp h
    · intro a b h
      exact le_of_not_le fun hc => by simp [(jsLe_id_asc a b).mpr hc] at h
    · intro a b c h hbc
      exact le_trans ((jsLe_id_asc a b).mp h) hbc
  · intro xs
    apply pairwise_stableSort
    · intro a b h
      exact (jsLe_id_desc a b).mp h
    · intro a b h
      exact le_of_not_le fun hc => by simp [(jsLe_id_desc a b).mpr hc] at h
    · intro a b c h hbc
      exact le_trans hbc ((jsLe_id_desc a b).mp h)

/-- A record with an unparseable date never compares at-or-before anything:
    the comparator returns 1 before even looking at the requested order. -/
theorem jsLe_date_badLeft {a b : Complaint} (ord : SortOrder)
    (h : parseDateString a.plannedDate = none) :
    jsLe .plannedDate ord a b = false := by
  simp [jsLe, jsCompare, h]

/-- A record with a parseable date always compares before one without:
    the comparator returns -1 regardless of the requested order. -/
theorem jsLe_date_goodBad {a b : Complaint} (ord : SortOrder) {da : JsDate}
    (ha : parseDateString a.plannedDate = some da)
    (hb : parseDateString b.plannedDate = none) :
    jsLe .plannedDate ord a b = true := by
  simp [jsLe, jsCompare, ha, hb]

theorem jsLe_date_goodGood_asc {a b : Complaint} {da db : JsDate}
    (ha : parseDateString a.plannedDate = some da)
    (hb : parseDateString b.plannedDate = some db) :
    (jsLe .plannedDate .asc a b = true ↔ jsGetTime da ≤ jsGetTime db) := by
  simp only [jsLe, jsCompare, ha, hb, decide_eq_true_eq]
  split
  next h => exact iff_of_true (by norm_num) (le_of_lt h)
  next h =>
    split
    next h2 => exact iff_of_false (by norm_num) (not_le.mpr h2)
    next h2 => exact iff_of_true le_rfl (le_of_not_lt h2)

theorem jsLe_date_goodGood_desc {a b : Complaint} {da db : JsDate}
    (ha : parseDateString a.plannedDate = some da)
    (hb : parseDateString b.plannedDate = some db) :
    (jsLe .plannedDate .desc a b = true ↔ jsGetTime db ≤ jsGetTime da) := by
  simp only [jsLe, jsCompare, ha, hb, decide_eq_true_eq]
  split
  next h => exact iff_of_false (by norm_num) (not_le.mpr h)
  next h =>
    split
    next h2 => exact iff_of_true (by norm_num) (le_of_lt h2)
    next h2 => exact iff_of_true le_rfl (le_of_not_lt h)

/-- C5: sorting by plannedDate puts every record whose date does not parse
    after every record whose date parses, under asc and desc alike (the
    placement rule is applied before the order sign), and orders parseable
    dates by their calendar instant according to the requested order; in the
    concrete example the one valid date comes first under both orders. -/
theorem C5_date_sort :
    (∀ (ord : SortOrder) (xs : List Complaint),
      (sortComplaints .plannedDate ord xs).Pairwise (fun a b =>
        (parseDateString a.plannedDate = none → parseDateString b.plannedDate = none) ∧
        (∀ da db, parseDateString a.plannedDate = some da →
          parseDateString b.plannedDate = some db →
          (match ord with
           | .asc => jsGetTime da ≤ jsGetTime db
           | .desc => jsGetTime db ≤ jsGetTime da)))) ∧
    (sortComplaints .plannedDate .asc
        [⟨"a", "31/02/24", "", "", "", "", "", "", "", "", "", "", .inProgress⟩,
         ⟨"b", "01/01/24", "", "", "", "", "", "", "", "", "", "", .inProgress⟩,
         ⟨"c", "", "", "", "", "", "", "", "", "", "", "", .inProgress⟩]).map Complaint.plannedDate =
      ["01/01/24", "", "31/02/24"] ∧
    (sortComplaints .plannedDate .desc
        [⟨"a", "31/02/24", "", "", "", "", "", "", "", "", "", "", .inProgress⟩,
         ⟨"b", "01/01/24", "", "", "", "", "", "", "", "", "", "", .inProgress⟩,
         ⟨"c", "", "", "", "", "", "", "", "", "", "", "", .inProgress⟩]).map Complaint.plannedDate =
      ["01/01/24", "", "31/02/24"] ∧
    parseDateString "31/02/24" = none ∧
    parseDateString "01/01/24" = some ⟨2024, 0, 1⟩ ∧
    parseDateString "" = none := by
  refine ⟨?_, by decide, by decide, by decide, by decide, by decide⟩
  intro ord xs
  apply pairwise_stableSort
  · intro a b h
    cases hpa : parseDateString a.plannedDate with
    | none => rw [jsLe_date_badLeft ord hpa] at h; cases h
    | some da =>
      constructor
      · intro h0
        simp at h0
      · intro x y hax hby
        injection hax with hax
        subst hax
        cases ord with
        | asc => exact (jsLe_date_goodGood_asc hpa hby).mp h
        | desc => exact (jsLe_date_goodGood_desc hpa hby).mp h
  · intro a b h
    cases hpa : parseDateString a.plannedDate with
    | none =>
      refine ⟨fun _ => rfl, ?_⟩
      intro x y hbx hay
      simp at hay
    | some da =>
      cases hpb : parseDateString b.plannedDate with
      | none => rw [jsLe_date_goodBad ord hpa hpb] at h; cases h
      | some db =>
        constructor
        · intro h0
          simp at h0
        · intro x y hbx hay
          injection hbx with hbx
          subst hbx
          injection hay with hay
          subst hay
          cases ord with
          | asc =>
            exact le_of_not_le fun hc => by
              rw [(jsLe_date_goodGood_asc hpa hpb).mpr hc] at h
              cases h
          | desc =>
            exact le_of_not_le fun hc => by
              rw [(jsLe_date_goodGood_desc hpa hpb).mpr hc] at h
              cases h
  · intro a b c hab hbc
    cases hpa : parseDateString a.plannedDate with
    | none => rw [jsLe_date_badLeft ord hpa] at hab; cases hab
    | some da =>
      constructor
      · intro h0
        simp at h0
      · intro x y hax hcy
        injection hax with hax
        subst hax
        cases hpb : parseDateString b.plannedDate with
        | none =>
          have hcnone := hbc.1 hpb
          rw [hcy] at hcnone
          cases hcnone
        | some db =>
          have h2 := hbc.2 db y hpb hcy
          cases ord with
          | asc => exact le_trans ((jsLe_date_goodGood_asc hpa hpb).mp hab) h2
          | desc => exact le_trans h2 ((jsLe_date_goodGood_desc hpa hpb).mp hab)

theorem daysInMonth_ge (y : Int) (m : Nat) : 28 ≤ daysInMonth y m := by
  unfold daysInMonth
  split_ifs <;> norm_num

theorem nextMonth_le (y : Int) (m : Nat) (h : m ≤ 11) : (nextMonth y m).2 ≤ 11 := by
  unfold nextMonth
  split
  · show (0 : Nat) ≤ 11
    omega
  · show m + 1 ≤ 11
    omega

theorem prevMonth_le (y : Int) (m : Nat) (h : m ≤ 11) : (prevMonth y m).2 ≤ 11 := by
  unfold prevMonth
  split
  · show (11 : Nat) ≤ 11
    omega
  · show m - 1 ≤ 11
    omega

theorem fixDayFwd_month_le :
    ∀ (fuel : Nat) (y : Int) (m : Nat) (d : Int), m ≤ 11 →
      (fixDayFwd fuel y m d).2.1 ≤ 11 := by
  intro fuel
  induction fuel with
  | zero => intro y m d h; exact h
  | succ f ih =>
    intro y m d h
    simp only [fixDayFwd]
    split
    · exact ih _ _ _ (nextMonth_le y m h)
    · exact h

theorem fixDayBwd_month_le :
    ∀ (fuel : Nat) (y : Int) (m : Nat) (d : Int), m ≤ 11 →
      (fixDayBwd fuel y m d).2.1 ≤ 11 := by
  intro fuel
  induction fuel with
  | zero => intro y m d h; exact h
  | succ f ih =>
    intro y m d h
    simp only [fixDayBwd]
    split
    · exact ih _ _ _ (prevMonth_le y m h)
    · exact h

theorem fixDayFwd_day_le :
    ∀ (fuel : Nat) (y : Int) (m : Nat) (d : Int), (fixDayFwd fuel y m d).2.2 ≤ d := by
  intro fuel
  induction fuel with
  | zero => intro y m d; exact le_refl d
  | succ f ih =>
    intro y m d
    simp only [fixDayFwd]
    split
    next hlt =>
      have hrec := ih (nextMonth y m).1 (nextMonth y m).2 (d - daysInMonth y m)
      have h28 := daysInMonth_ge y m
      omega
    next => exact le_refl d

theorem fixDayFwd_day_lt (fuel : Nat) (y : Int) (m : Nat) (d : Int)
    (h : daysInMonth y m < d) (hf : 1 ≤ fuel) : (fixDayFwd fuel y m d).2.2 < d := by
  cases fuel with
  | zero => omega
  | succ f =>
    simp only [fixDayFwd]
    rw [if_pos h]
    have hrec := fixDayFwd_day_le f (nextMonth y m).1 (nextMonth y m).2 (d - daysInMonth y m)
    have h28 := daysInMonth_ge y m
    omega

theorem fixDayBwd_day_ge :
    ∀ (fuel : Nat) (y : Int) (m : Nat) (d : Int), d ≤ (fixDayBwd fuel y m d).2.2 := by
  intro fuel
  induction fuel with
  | zero => intro y m d; exact le_refl d
  | succ f ih =>
    intro y m d
    simp only [fixDayBwd]
    split
    next hlt =>
      have hrec := ih (prevMonth y m).1 (prevMonth y m).2 (d + daysInMonth (prevMonth y m).1 (prevMonth y m).2)
      have h28 := daysInMonth_ge (prevMonth y m).1 (prevMonth y m).2
      omega
    next => exact le_refl d

theorem fixDayBwd_day_gt (fuel : Nat) (y : Int) (m : Nat) (d : Int)
    (h : d < 1) (hf : 1 ≤ fuel) : d < (fixDayBwd fuel y m d).2.2 := by
  cases fuel with
  | zero => omega
  | succ f =>
    simp only [fixDayBwd]
    rw [if_pos h]
    have hrec := fixDayBwd_day_ge f (prevMonth y m).1 (prevMonth y m).2 (d + daysInMonth (prevMonth y m).1 (prevMonth y m).2)
    have h28 := daysInMonth_ge (prevMonth y m).1 (prevMonth y m).2
    omega

theorem fixDayFwd_eq_self (fuel : Nat) (y : Int) (m : Nat) (d : Int)
    (h : ¬ daysInMonth y m < d) : fixDayFwd fuel y m d = (y, m, d) := by
  cases fuel with
  | zero => rfl
  | succ f =>
    simp only [fixDayFwd]
    rw [if_neg h]

theorem jsDateNorm_month_le (y m d : Int) : (jsDateNorm y m d).2.1 ≤ 11 := by
  have h0 := Int.fmod_nonneg' m (show (0 : Int) < 12 by norm_num)
  have h1 := Int.fmod_lt_of_pos m (show (0 : Int) < 12 by norm_num)
  have hmn : (m.fmod 12).toNat ≤ 11 := by omega
  simp only [jsDateNorm]
  split
  · exact fixDayBwd_month_le _ _ _ _ hmn
  · exact fixDayFwd_month_le _ _ _ _ hmn

/-- For a month already in range, the floored division and modulo by 12 in
    the Date.UTC normalisation are trivial. -/
theorem month_fdiv_fmod (month : Int) (h0 : 0 ≤ month) (h1 : month ≤ 11) :
    month.fdiv 12 = 0 ∧ month.fmod 12 = month := by
  have hb0 := Int.fmod_nonneg' month (show (0 : Int) < 12 by norm_num)
  have hb1 := Int.fmod_lt_of_pos month (show (0 : Int) < 12 by norm_num)
  have heq := Int.fmod_add_fdiv month 12
  omega

/-- The round-trip check of parseDateString succeeds exactly for a calendar
    date whose year is outside the 0..99 band remapped by Date.UTC, whose
    0-based month is within 0..11 and whose day is within the length of that
    month. -/
theorem jsDateNorm_check_iff (year month dd : Int) :
    ((jsDateNorm (if 0 ≤ year ∧ year ≤ 99 then year + 1900 else year) month dd).1 = year ∧
      (((jsDateNorm (if 0 ≤ year ∧ year ≤ 99 then year + 1900 else year) month dd).2.1 : Nat) : Int) = month ∧
      (jsDateNorm (if 0 ≤ year ∧ year ≤ 99 then year + 1900 else year) month dd).2.2 = dd) ↔
    (¬ (0 ≤ year ∧ year ≤ 99) ∧ 0 ≤ month ∧ month ≤ 11 ∧ 1 ≤ dd ∧
      dd ≤ daysInMonth year month.toNat) := by
  constructor
  · rintro ⟨h1, h2, h3⟩
    have hm11 : (jsDateNorm (if 0 ≤ year ∧ year ≤ 99 then year + 1900 else year) month dd).2.1 ≤ 11 :=
      jsDateNorm_month_le _ _ _
    have hm0 : 0 ≤ month := by omega
    have hm1 : month ≤ 11 := by omega
    obtain ⟨hfd, hfm⟩ := month_fdiv_fmod month hm0 hm1
    have hnorm : jsDateNorm (if 0 ≤ year ∧ year ≤ 99 then year + 1900 else year) month dd =
        (if dd < 1 then
          fixDayBwd (1 - dd).toNat (if 0 ≤ year ∧ year ≤ 99 then year + 1900 else year) month.toNat dd
         else
          fixDayFwd dd.toNat (if 0 ≤ year ∧ year ≤ 99 then year + 1900 else year) month.toNat dd) := by
      simp only [jsDateNorm, hfd, hfm, add_zero]
    rw [hnorm] at h1 h2 h3
    by_cases hd1 : dd < 1
    · rw [if_pos hd1] at h3
      have := fixDayBwd_day_gt (1 - dd).toNat
        (if 0 ≤ year ∧ year ≤ 99 then year + 1900 else year) month.toNat dd hd1 (by omega)
      omega
    · rw [if_neg hd1] at h1 h2 h3
      by_cases hdim : daysInMonth (if 0 ≤ year ∧ year ≤ 99 then year + 1900 else year) month.toNat < dd
      · have := fixDayFwd_day_lt dd.toNat
          (if 0 ≤ year ∧ year ≤ 99 then year + 1900 else year) month.toNat dd hdim (by omega)
        omega
      · rw [fixDayFwd_eq_self _ _ _ _ hdim] at h1 h3
        by_cases hadj : 0 ≤ year ∧ year ≤ 99
        · rw [if_pos hadj] at h1
          omega
        · rw [if_neg hadj] at hdim
          exact ⟨hadj, hm0, hm1, by omega, by omega⟩
  · rintro ⟨hadj, hm0, hm1, hd1, hdim⟩
    obtain ⟨hfd, hfm⟩ := month_fdiv_fmod month hm0 hm1
    have hnorm : jsDateNorm (if 0 ≤ year ∧ year ≤ 99 then year + 1900 else year) month dd =
        fixDayFwd dd.toNat (if 0 ≤ year ∧ year ≤ 99 then year + 1900 else year) month.toNat dd := by
      simp only [jsDateNorm, hfd, hfm, add_zero]
      rw [if_neg (by omega : ¬ dd < 1)]
    rw [hnorm, if_neg hadj, fixDayFwd_eq_self _ _ _ _ (by omega)]
    refine ⟨rfl, ?_, rfl⟩
    show ((month.toNat : Nat) : Int) = month
    omega

/-- C6: parseDateString returns a date exactly when the input splits on the
    slash into three parseInt-numeric parts that spell a valid calendar date
    (day within the length of the month, rejecting e.g. day 31 in a 30-day
    month), after the year is normalised by adding 2000 when below 100; also
    the year must fall outside the 0..99 band that Date.UTC remaps to
    1900..1999, which would break the read-back check.  The returned date
    carries exactly the normalised year, the 0-based month and the day. -/
theorem C6_date_parse :
    ∀ (s : String) (dt : JsDate),
      parseDateString s = some dt ↔
        ∃ p0 p1 p2 dd mm yy year,
          splitOnChar '/' s = [p0, p1, p2] ∧
          jsParseInt p0 = some dd ∧ jsParseInt p1 = some mm ∧ jsParseInt p2 = some yy ∧
          year = (if yy < 100 then yy + 2000 else yy) ∧
          ¬ (0 ≤ year ∧ year ≤ 99) ∧ 1 ≤ mm ∧ mm ≤ 12 ∧ 1 ≤ dd ∧
          dd ≤ daysInMonth year (mm - 1).toNat ∧
          dt = ⟨year, mm - 1, dd⟩ := by
  intro s dt
  constructor
  · intro h
    simp only [parseDateString] at h
    split at h
    · cases h
    · split at h
      next p0 p1 p2 heq =>
        split at h
        next dd mm yy hp0 hp1 hp2 =>
          set year : Int := if yy < 100 then yy + 2000 else yy with hyear
          set yA : Int := if 0 ≤ year ∧ year ≤ 99 then year + 1900 else year with hyA
          split at h
          next hc =>
            injection h with h
            obtain ⟨e1, e2, e3⟩ := hc
            have hc2 : (jsDateNorm (if 0 ≤ year ∧ year ≤ 99 then year + 1900 else year) (mm - 1) dd).1 = year ∧
                (((jsDateNorm (if 0 ≤ year ∧ year ≤ 99 then year + 1900 else year) (mm - 1) dd).2.1 : Nat) : Int) = mm - 1 ∧
                (jsDateNorm (if 0 ≤ year ∧ year ≤ 99 then year + 1900 else year) (mm - 1) dd).2.2 = dd := by
              rw [← hyA]
              exact ⟨e1, e2, e3⟩
            obtain ⟨hadj, hm0, hm1, hd1, hdim⟩ := (jsDateNorm_check_iff year (mm - 1) dd).mp hc2
            refine ⟨p0, p1, p2, dd, mm, yy, year, heq, hp0, hp1, hp2, hyear, hadj,
              by omega, by omega, hd1, hdim, ?_⟩
            rw [← h, e1, e2, e3]
          next hc => cases h
        next => cases h
      next => cases h
  · rintro ⟨p0, p1, p2, dd, mm, yy, year, hsplit, hp0, hp1, hp2, hyear, hadj, hm1, hm12, hd1, hdim, hdt⟩
    subst hyear
    subst hdt
    have hs : s ≠ "" := by
      intro h0
      subst h0
      rw [show splitOnChar '/' "" = [""] from rfl] at hsplit
      simp at hsplit
    have hc := (jsDateNorm_check_iff (if yy < 100 then yy + 2000 else yy) (mm - 1) dd).mpr
      ⟨hadj, by omega, by omega, hd1, hdim⟩
    obtain ⟨e1, e2, e3⟩ := hc
    simp only [parseDateString, hsplit, hp0, hp1, hp2]
    rw [if_neg hs, if_pos ⟨e1, e2, e3⟩, e1, e2, e3]
